import Mathlib

/-!
Shallow embedding of the homelabsite repository (Go) for checking its
natural-language specification.  Go strings are modelled as lists of runes,
SQLite tables as Lean lists, Go maps as association lists with
replace-or-append assignment, and time as integer seconds.
-/

set_option maxHeartbeats 1000000

namespace Homelab

/-- Go strings are modelled as their list of runes. -/
abbrev GoStr : Type := List Char

/-- Association-list model of a Go map: lookup of a key. -/
def mapGet {α : Type} : List (GoStr × α) → GoStr → Option α
  | [], _ => none
  | (k, v) :: rest, key => if k == key then some v else mapGet rest key

/-- Association-list model of a Go map: assignment `m[k] = v` replaces the
existing binding or appends a fresh one. -/
def mapPut {α : Type} : List (GoStr × α) → GoStr → α → List (GoStr × α)
  | [], key, v => [(key, v)]
  | (k, w) :: rest, key, v =>
    if k == key then (key, v) :: rest else (k, w) :: mapPut rest key v

/-- List indexing, `xs[i]` as an option. -/
def nth {α : Type} : List α → Nat → Option α
  | [], _ => none
  | a :: _, 0 => some a
  | _ :: as, n + 1 => nth as n

/-- In-place update of one slice element, as Go `comments[j].f = ...` does. -/
def listModify {α : Type} : List α → Nat → (α → α) → List α
  | [], _, _ => []
  | a :: as, 0, f => f a :: as
  | a :: as, n + 1, f => a :: listModify as n f

end Homelab

namespace Homelab

/-- Helper for substring matching: the needle matches at the head of the hay. -/
def headMatch : GoStr → GoStr → Bool
  | [], _ => true
  | _ :: _, [] => false
  | a :: as, b :: bs => (a == b) && headMatch as bs

/-- Literal (case-sensitive) substring containment of the needle in the hay. -/
def strSub (needle : GoStr) : GoStr → Bool
  | [] => headMatch needle []
  | b :: bs => headMatch needle (b :: bs) || strSub needle bs

/-- Rune-wise lower casing, modelling case-insensitive SQL text comparison. -/
def lowerStr (s : GoStr) : GoStr := s.map Char.toLower

/-- Go strings.EqualFold, modelled as equality after simple case folding. -/
def equalFold (a b : GoStr) : Bool := lowerStr a == lowerStr b

end Homelab

namespace Homelab

/-- Tag parsing from src/unnamed/part_004 parseTagsFromString: the loop body,
accumulating the current segment and flushing it at each comma, skipping
empty segments. -/
def parseTagsCore : GoStr → List GoStr → GoStr → List GoStr
  | [], acc, cur => if cur.isEmpty then acc else acc ++ [cur]
  | c :: cs, acc, cur =>
    if c = ',' then
      if cur.isEmpty then parseTagsCore cs acc []
      else parseTagsCore cs (acc ++ [cur]) []
    else parseTagsCore cs acc (cur ++ [c])

/-- parseTagsFromString from src/unnamed/part_004: empty input gives no tags,
otherwise the stored text is split on commas with empty segments skipped. -/
def parseTagsFromString (tags : GoStr) : List GoStr :=
  if tags.isEmpty then [] else parseTagsCore tags [] []

/-- joinTags from src/unnamed/part_004, written exactly as the Go loop: a
fold carrying the accumulated text and the element index, prepending a comma
before every tag except the first. -/
def joinTags (tags : List GoStr) : GoStr :=
  if tags.length = 0 then []
  else
    (tags.foldl
      (fun (acc : GoStr × Nat) tag =>
        (acc.1 ++ (if acc.2 > 0 then [','] else []) ++ tag, acc.2 + 1))
      ([], 0)).1

/-- Recursive characterisation of the tail of joinTags: every remaining tag
is preceded by a comma. -/
def joinRest : List GoStr → GoStr
  | [] => []
  | t :: ts => [','] ++ t ++ joinRest ts

end Homelab

namespace Homelab

/-- models.Comment from src/unnamed/part_006: ID, PostID, ParentID
(nullable self reference), AuthorName, AuthorEmail, Content, CreatedAt
(integer seconds), Approved, and the nested Replies list that
buildCommentTree fills in. -/
inductive GComment : Type where
  | mk (id : Int) (postId : GoStr) (parentId : Option Int)
      (authorName : GoStr) (authorEmail : GoStr) (content : GoStr)
      (createdAt : Int) (approved : Bool) (replies : List GComment)

/-- Field ID of a comment. -/
def GComment.id : GComment → Int
  | .mk i _ _ _ _ _ _ _ _ => i

/-- Field PostID of a comment. -/
def GComment.postId : GComment → GoStr
  | .mk _ p _ _ _ _ _ _ _ => p

/-- Field ParentID of a comment. -/
def GComment.parentId : GComment → Option Int
  | .mk _ _ p _ _ _ _ _ _ => p

/-- Field AuthorName of a comment. -/
def GComment.authorName : GComment → GoStr
  | .mk _ _ _ a _ _ _ _ _ => a

/-- Field AuthorEmail of a comment. -/
def GComment.authorEmail : GComment → GoStr
  | .mk _ _ _ _ a _ _ _ _ => a

/-- Field Content of a comment. -/
def GComment.content : GComment → GoStr
  | .mk _ _ _ _ _ c _ _ _ => c

/-- Field CreatedAt of a comment. -/
def GComment.createdAt : GComment → Int
  | .mk _ _ _ _ _ _ t _ _ => t

/-- Field Approved of a comment. -/
def GComment.approved : GComment → Bool
  | .mk _ _ _ _ _ _ _ a _ => a

/-- Field Replies of a comment. -/
def GComment.replies : GComment → List GComment
  | .mk _ _ _ _ _ _ _ _ r => r

/-- Struct update replacing the Replies field. -/
def GComment.withReplies : GComment → List GComment → GComment
  | .mk i p par an ae c t ap _, r => .mk i p par an ae c t ap r

/-- The first loop of buildCommentTree sets Replies to an empty slice. -/
def GComment.clearReplies (c : GComment) : GComment := c.withReplies []

/-- Go parent.Replies = append(parent.Replies, *comment): a value copy of
the reply is appended to the Replies of the parent slice element. -/
def GComment.addReply (p c : GComment) : GComment :=
  p.withReplies (p.replies ++ [c])

/-- db.SaveComment sets comment.ID to the rowid the database assigns. -/
def GComment.withId : GComment → Int → GComment
  | .mk _ p par an ae c t ap r, i => .mk i p par an ae c t ap r

/-- GetCommentsByPostID from src/db/comments.go: rows of the comments table
with post_id = postID AND approved = 1, ordered by created_at ascending. -/
def getCommentsByPostID (table : List GComment) (postID : GoStr) : List GComment :=
  List.insertionSort (fun a b => a.createdAt ≤ b.createdAt)
    (table.filter (fun c => c.postId == postID && c.approved))

/-- db.SaveComment from src/db/comments.go: inserts the comment row with
the fields exactly as passed, the ID being the auto-increment rowid. -/
def saveComment (table : List GComment) (c : GComment) (rowid : Int) : List GComment :=
  table ++ [c.withId rowid]

/-- Go strings.TrimSpace: leading and trailing white space removed. -/
def trimSpace (s : GoStr) : GoStr :=
  ((s.dropWhile Char.isWhitespace).reverse.dropWhile Char.isWhitespace).reverse

/-- Outcome of the public comment submission handler: a 400 response with
an inline message, or the comment value handed to db.SaveComment. -/
inductive PostCommentResult : Type where
  | badRequest (msg : GoStr)
  | saved (c : GComment)

/-- HandlePostComment from src/handlers/comments.go lines 47-100: trims the
three form fields, validates them (non-empty; content at most 2000 long),
and on success builds the comment passed to db.SaveComment, with ID 0,
ParentID = nil and Approved = false. -/
def handlePostComment (postID authorNameRaw authorEmailRaw contentRaw : GoStr)
    (now : Int) : PostCommentResult :=
  if (trimSpace authorNameRaw).isEmpty then
    .badRequest ("Author name is required".toList)
  else if (trimSpace authorEmailRaw).isEmpty then
    .badRequest ("Author email is required".toList)
  else if (trimSpace contentRaw).isEmpty then
    .badRequest ("Comment content is required".toList)
  else if (trimSpace contentRaw).length > 2000 then
    .badRequest ("Comment content too long (max 2000 chars)".toList)
  else
    .saved (GComment.mk 0 postID none (trimSpace authorNameRaw)
      (trimSpace authorEmailRaw) (trimSpace contentRaw) now false [])

/-- The commentMap of buildCommentTree maps each ID to a pointer into the
comments slice; the map is written once per element in slice order, so the
pointer for an ID is the one of the last index carrying it.  This helper
returns that index, offset by k. -/
def mapIdxFrom : List GComment → Int → Nat → Option Nat
  | [], _, _ => none
  | c :: cs, cid, k =>
    match mapIdxFrom cs cid (k + 1) with
    | some j => some j
    | none => if c.id == cid then some k else none

/-- Slice index the commentMap pointer for cid refers to. -/
def mapIdx (cs : List GComment) (cid : Int) : Option Nat := mapIdxFrom cs cid 0

/-- One iteration of the second loop of buildCommentTree
(src/handlers/comments.go lines 186-199).  The state is the comments slice
(whose elements the commentMap pointers alias) together with the roots
accumulator.  A root-level comment is appended to roots as a value copy; a
reply is appended, again as a value copy, to the Replies of the slice
element its parent pointer designates; a reply whose parent is absent from
the map is skipped. -/
def buildStep (lookup : Int → Option Nat) (st : List GComment × List GComment)
    (i : Nat) : List GComment × List GComment :=
  match nth st.1 i with
  | none => st
  | some c =>
    match c.parentId with
    | none => (st.1, st.2 ++ [c])
    | some pid =>
      match lookup pid with
      | some j => (listModify st.1 j (fun p => p.addReply c), st.2)
      | none => st

/-- buildCommentTree from src/handlers/comments.go lines 177-202: the first
loop initialises every Replies slice to empty and records the commentMap,
the second loop runs buildStep over all indices, and the accumulated root
copies are returned. -/
def buildCommentTree (comments : List GComment) : List GComment :=
  let cs0 := comments.map GComment.clearReplies
  ((List.range cs0.length).foldl (buildStep (mapIdx cs0)) (cs0, [])).2

end Homelab

namespace Homelab

mutual

/-- The comment with ID cid occurs somewhere in this comment subtree. -/
def occursTree (cid : Int) : GComment → Bool
  | .mk i _ _ _ _ _ _ _ rs => (i == cid) || occursList cid rs

/-- The comment with ID cid occurs somewhere in this forest. -/
def occursList (cid : Int) : List GComment → Bool
  | [] => false
  | c :: cs => occursTree cid c || occursList cid cs

end

/-- ID and parent reference of a comment, the data the tree build branches
on; the loop never changes them. -/
def IdPar (c : GComment) : Int × Option Int := (c.id, c.parentId)

/-- Invariant of the second loop of buildCommentTree for an ID cid that
never enters the output: cid occurs in no accumulated root, in no Replies
slice, and the IDs and parent references of the slice never change. -/
def TreeInv (cid : Int) (base : List GComment)
    (st : List GComment × List GComment) : Prop :=
  occursList cid st.2 = false
  ∧ (∀ i c, nth st.1 i = some c → occursList cid c.replies = false)
  ∧ (∀ i, (nth st.1 i).map IdPar = (nth base i).map IdPar)

end Homelab

namespace Homelab

/-- SQLite LIKE pattern matching over runes: a percent wildcard matches any
run of characters (equivalently, the rest of the pattern matches some tail
of the text), an underscore matches exactly one character, and any other
pattern character matches a single text character case-insensitively
(SQLite LIKE is case-insensitive by default). -/
def likeM : GoStr → GoStr → Bool
  | [], t => t.isEmpty
  | c :: ps, t =>
    if c = '%' then t.tails.any (fun s => likeM ps s)
    else
      match t with
      | [] => false
      | d :: ts =>
        (if c = '_' then true else Char.toLower c == Char.toLower d)
          && likeM ps ts

/-- A row of the posts table, the tags stored as one comma-joined text
field (schema in src/unnamed/part_004 initSchema). -/
structure PostRow : Type where
  id : GoStr
  title : GoStr
  date : Int
  category : GoStr
  summary : GoStr
  content : GoStr
  tags : GoStr
deriving DecidableEq

/-- models.Post as the search queries scan it, the tags text parsed into a
list. -/
structure Post : Type where
  id : GoStr
  title : GoStr
  date : Int
  category : GoStr
  summary : GoStr
  content : GoStr
  tags : List GoStr
deriving DecidableEq

/-- Row scan of SearchPosts and SearchPostsByTag: the tags text is parsed
when non-empty (src/db/search.go lines 35-45 and 80-90). -/
def rowToPost (r : PostRow) : Post :=
  { id := r.id, title := r.title, date := r.date, category := r.category,
    summary := r.summary, content := r.content,
    tags := if r.tags.isEmpty then [] else parseTagsFromString r.tags }

/-- ORDER BY date DESC of the search queries. -/
def sortByDateDesc (rows : List PostRow) : List PostRow :=
  List.insertionSort (fun a b => b.date ≤ a.date) rows

/-- SearchPosts from src/db/search.go lines 10-48: the empty query returns
the empty list; otherwise the rows whose title, content, category or tags
match LIKE percent-query-percent are returned ordered by date descending
and scanned into posts. -/
def searchPosts (table : List PostRow) (query : GoStr) : List Post :=
  if query.isEmpty then []
  else
    ((sortByDateDesc table).filter (fun r =>
      likeM (['%'] ++ query ++ ['%']) r.title
        || likeM (['%'] ++ query ++ ['%']) r.content
        || likeM (['%'] ++ query ++ ['%']) r.category
        || likeM (['%'] ++ query ++ ['%']) r.tags)).map rowToPost

/-- The four LIKE prefilter patterns of SearchPostsByTag (exact, at start,
at end, in middle); the query wraps each of them in percents. -/
def tagPatterns (tag : GoStr) : List GoStr :=
  [tag, tag ++ [',', '%'], ['%', ','] ++ tag, ['%', ','] ++ tag ++ [',', '%']]

/-- SearchPostsByTag from src/db/search.go lines 51-114: the empty tag
returns the empty list; otherwise, for each of the four patterns, the rows
passing the LIKE prefilter on the stored tags text are scanned and a post
is recorded in postsMap (keyed by post ID, later writes replacing earlier
ones) only when one of its parsed tags equals the tag under
strings.EqualFold; the map values are returned (Go map iteration order is
unspecified; insertion order stands in for it). -/
def searchPostsByTag (table : List PostRow) (tag : GoStr) : List Post :=
  if tag.isEmpty then []
  else
    ((tagPatterns tag).foldl
      (fun m pat =>
        ((sortByDateDesc table).filter
          (fun r => likeM (['%'] ++ pat ++ ['%']) r.tags)).foldl
          (fun m r =>
            if (rowToPost r).tags.any (fun t => equalFold t tag) then
              mapPut m r.id (rowToPost r)
            else m)
          m)
      []).map (fun kv => kv.2)

end Homelab

namespace Homelab

/-- Connection state of the embedded SQLite database: the posts and
comments tables together with the per-connection foreign_keys flag.
SQLite enforces declared foreign-key actions, such as the ON DELETE
CASCADE on comments.post_id declared by CreateCommentsTable
(src/db/comments.go lines 11-32), only while PRAGMA foreign_keys = ON has
been executed on the connection; per the SQLite documentation the flag is
off on every fresh connection. -/
structure SqliteConn : Type where
  posts : List PostRow
  comments : List GComment
  foreignKeysOn : Bool

/-- sql.Open on a fresh database file: empty tables, foreign-key
enforcement at its SQLite default of off. -/
def sqliteOpen : SqliteConn :=
  { posts := [], comments := [], foreignKeysOn := false }

/-- PRAGMA foreign_keys = ON, as the comments test setup executes
(src/unnamed/part_003 lines 18-21); db.New never executes it. -/
def execPragmaForeignKeysOn (c : SqliteConn) : SqliteConn :=
  { c with foreignKeysOn := true }

/-- db.New from src/unnamed/part_004 lines 20-50: opens the connection and
runs initSchema; no foreign-key pragma is executed on the connection. -/
def dbNew : SqliteConn := sqliteOpen

/-- INSERT of a post row (db.SavePost, new post case). -/
def insertPost (c : SqliteConn) (r : PostRow) : SqliteConn :=
  { c with posts := c.posts ++ [r] }

/-- INSERT of a comment row (db.SaveComment). -/
def insertComment (c : SqliteConn) (cm : GComment) : SqliteConn :=
  { c with comments := c.comments ++ [cm] }

/-- DeletePost from src/unnamed/part_004 lines 163-167: DELETE FROM posts
WHERE id = ?.  The ON DELETE CASCADE declared on comments.post_id removes
the comments of the deleted post exactly when foreign-key enforcement is
on for the connection. -/
def deletePost (c : SqliteConn) (pid : GoStr) : SqliteConn :=
  { c with
    posts := c.posts.filter (fun r => !(r.id == pid)),
    comments :=
      if c.foreignKeysOn then c.comments.filter (fun cm => !(cm.postId == pid))
      else c.comments }

end Homelab

namespace Homelab

/-- State of the per-IP rate limiter middleware: one token count per
observed client address plus the configured burst.  Modelled from the
spec: the token buckets come from golang.org/x/time/rate, which is not
part of this repository; per its documentation a fresh limiter starts
full at the configured burst and Allow consumes one token, reporting
false when none remains.  The rate-based refill is not modelled, matching
the stipulation of no intervening token refill. -/
structure RateLimiterState : Type where
  limiters : List (GoStr × Nat)
  burst : Nat

/-- NewRateLimiter from src/unnamed/part_008: empty limiter map with the
configured burst. -/
def newRateLimiter (b : Nat) : RateLimiterState := { limiters := [], burst := b }

/-- The request data the middleware reads to identify the client. -/
structure HttpReq : Type where
  xForwardedFor : GoStr
  xRealIP : GoStr
  remoteAddr : GoStr

/-- getIP from src/unnamed/part_008 lines 179-194: X-Forwarded-For first,
then X-Real-IP, then the raw RemoteAddr. -/
def getIP (r : HttpReq) : GoStr :=
  if !r.xForwardedFor.isEmpty then r.xForwardedFor
  else if !r.xRealIP.isEmpty then r.xRealIP
  else r.remoteAddr

/-- RateLimit middleware from src/unnamed/part_008 lines 145-157:
getLimiter creates the bucket of a first-seen address at full burst;
Allow consumes a token when one remains and the wrapped handler runs
(status 200 stands for that); otherwise http.Error writes status 429 and
the wrapped handler does not run. -/
def rateLimit (s : RateLimiterState) (ip : GoStr) : RateLimiterState × Nat :=
  let t := (mapGet s.limiters ip).getD s.burst
  if 0 < t then ({ s with limiters := mapPut s.limiters ip (t - 1) }, 200)
  else ({ s with limiters := mapPut s.limiters ip t }, 429)

/-- Sequential processing of a list of requests given by client address. -/
def runRequests (s : RateLimiterState) : List GoStr → RateLimiterState × List Nat
  | [] => (s, [])
  | ip :: rest =>
    let r := rateLimit s ip
    let rr := runRequests r.1 rest
    (rr.1, r.2 :: rr.2)

end Homelab

namespace Homelab

/-- Session store of the auth middleware: token to expiry, in integer
seconds. -/
structure AuthState : Type where
  sessions : List (GoStr × Int)

/-- Outcome of RequireAuth: a 302 redirect to /admin/login without the
protected handler running, or the protected handler running with the
session window extended. -/
inductive AuthOutcome : Type where
  | redirectLogin
  | handlerRun (newSessions : List (GoStr × Int))

/-- The 24 hour session validity window, in seconds. -/
def sessionWindow : Int := 86400

/-- RequireAuth from src/middleware/auth.go lines 37-61 (the same logic
appears in src/unnamed/part_008 lines 28-52): a missing session cookie, a
token absent from the session map, or time.Now().After(expiry) redirect
to the login page and the protected handler is not invoked; otherwise the
expiry is extended to now plus 24 hours and the handler runs. -/
def requireAuth (st : AuthState) (cookie : Option GoStr) (now : Int) : AuthOutcome :=
  match cookie with
  | none => .redirectLogin
  | some tok =>
    match mapGet st.sessions tok with
    | none => .redirectLogin
    | some expiry =>
      if expiry < now then .redirectLogin
      else .handlerRun (mapPut st.sessions tok (now + sessionWindow))

end Homelab

namespace Homelab

/-- Concrete post row titled Hi, a fixture for evaluating the search
queries. -/
def rowHi : PostRow :=
  { id := ['1'], title := ['H', 'i'], date := 0, category := ['c'],
    summary := ['s'], content := ['x'], tags := [] }

/-- Concrete post row whose stored tags text is go,web, a fixture for
evaluating the tag search. -/
def rowGoWeb : PostRow :=
  { id := ['2'], title := ['T'], date := 0, category := ['c'],
    summary := ['s'], content := ['x'],
    tags := ['g', 'o', ',', 'w', 'e', 'b'] }

/-- Concrete post row with ID p1, a fixture for evaluating DeletePost. -/
def rowP1 : PostRow :=
  { id := ['p', '1'], title := ['T'], date := 0, category := ['c'],
    summary := ['s'], content := ['x'], tags := [] }

/-- Concrete approved comment on post p1, a fixture for evaluating
DeletePost. -/
def commentP1 : GComment :=
  GComment.mk 1 ['p', '1'] none ['A'] ['a'] ['x'] 10 true []

end Homelab

namespace Homelab

theorem headMatch_iff (n h : GoStr) :
    headMatch n h = true ↔ ∃ t, h = n ++ t := by
  induction n generalizing h with
  | nil =>
    simp [headMatch]
  | cons a as ih =>
    cases h with
    | nil =>
      simp [headMatch]
    | cons b bs =>
      simp only [headMatch, Bool.and_eq_true, beq_iff_eq, ih, List.cons_append,
        List.cons.injEq]
      constructor
      · rintro ⟨rfl, t, rfl⟩
        exact ⟨t, rfl, rfl⟩
      · rintro ⟨t, rfl, rfl⟩
        exact ⟨rfl, t, rfl⟩

theorem strSub_iff (n h : GoStr) :
    strSub n h = true ↔ ∃ a b, h = a ++ n ++ b := by
  induction h with
  | nil =>
    simp only [strSub, headMatch_iff]
    constructor
    · rintro ⟨t, ht⟩
      exact ⟨[], t, ht⟩
    · rintro ⟨a, b, hab⟩
      rcases a with _ | ⟨x, xs⟩
      · exact ⟨b, hab⟩
      · simp at hab
    | cons c cs ih =>
      simp only [strSub, Bool.or_eq_true, headMatch_iff, ih]
      constructor
      · rintro (⟨t, ht⟩ | ⟨a, b, hab⟩)
        · exact ⟨[], t, ht⟩
        · exact ⟨c :: a, b, by simp [hab]⟩
      · rintro ⟨a, b, hab⟩
        rcases a with _ | ⟨x, xs⟩
        · exact Or.inl ⟨b, hab⟩
        · simp only [List.cons_append, List.cons.injEq] at hab
          exact Or.inr ⟨xs, b, hab.2⟩

theorem joinTags_foldl (ts : List GoStr) (acc : GoStr) (k : Nat) :
    (ts.foldl
      (fun (st : GoStr × Nat) tag =>
        (st.1 ++ (if st.2 > 0 then [','] else []) ++ tag, st.2 + 1))
      (acc, k + 1)).1 = acc ++ joinRest ts := by
  induction ts generalizing acc k with
  | nil => simp [joinRest]
  | cons t ts ih =>
    simp only [List.foldl_cons, joinRest]
    have h : (k + 1 > 0) = True := by simp
    rw [if_pos (by omega : k + 1 > 0)]
    rw [ih (acc ++ [','] ++ t) (k + 1)]
    simp

theorem joinTags_cons (t : GoStr) (ts : List GoStr) :
    joinTags (t :: ts) = t ++ joinRest ts := by
  simp only [joinTags, List.length_cons, List.foldl_cons]
  rw [if_neg (by simp)]
  have : (([] : GoStr) ++ (if (0 : Nat) > 0 then [','] else []) ++ t, (0 : Nat) + 1)
      = (t, 1) := by simp
  rw [this]
  simpa using joinTags_foldl ts t 0

theorem parseTagsCore_chunk (cs rest : GoStr) (acc : List GoStr) (cur : GoStr)
    (h : ∀ c ∈ cs, c ≠ ',') :
    parseTagsCore (cs ++ rest) acc cur = parseTagsCore rest acc (cur ++ cs) := by
  induction cs generalizing cur with
  | nil => simp
  | cons c cs ih =>
    have hc : c ≠ ',' := h c (by simp)
    have step : parseTagsCore ((c :: cs) ++ rest) acc cur
        = parseTagsCore (cs ++ rest) acc (cur ++ [c]) := by
      simp [parseTagsCore, hc]
    rw [step, ih (cur ++ [c]) (fun x hx => h x (by simp [hx]))]
    simp

theorem parseTagsCore_join (ts : List GoStr) (acc : List GoStr) (cur : GoStr)
    (hcur : ¬cur.isEmpty)
    (h : ∀ t ∈ ts, ¬t.isEmpty ∧ ∀ c ∈ t, c ≠ ',') :
    parseTagsCore (joinRest ts) acc cur = acc ++ [cur] ++ ts := by
  induction ts generalizing acc cur with
  | nil => simp [joinRest, parseTagsCore, hcur]
  | cons t ts ih =>
    obtain ⟨ht1, ht2⟩ := h t (by simp)
    have step : parseTagsCore (joinRest (t :: ts)) acc cur
        = parseTagsCore (t ++ joinRest ts) (acc ++ [cur]) [] := by
      simp [joinRest, parseTagsCore, hcur]
    rw [step, parseTagsCore_chunk t (joinRest ts) (acc ++ [cur]) [] ht2]
    simp only [List.nil_append]
    rw [ih (acc ++ [cur]) t ht1 (fun x hx => h x (by simp [hx]))]
    simp

/-- Claim C8: for every list of tags in which each tag is non-empty and
contains no comma character, parseTagsFromString (joinTags tags) returns
exactly the original list (round-trip identity of the comma-joined
encoding). -/
theorem parse_join_roundtrip (tags : List GoStr)
    (h : ∀ t ∈ tags, ¬t.isEmpty ∧ ∀ c ∈ t, c ≠ ',') :
    parseTagsFromString (joinTags tags) = tags := by
  cases tags with
  | nil => rfl
  | cons t ts =>
    obtain ⟨ht1, ht2⟩ := h t (by simp)
    rw [joinTags_cons]
    have hne : ¬(t ++ joinRest ts).isEmpty := by
      cases t with
      | nil => simp [List.isEmpty] at ht1
      | cons x xs => simp [List.isEmpty]
    simp only [parseTagsFromString, if_neg hne]
    rw [parseTagsCore_chunk t (joinRest ts) [] [] ht2]
    simp only [List.nil_append]
    rw [parseTagsCore_join ts [] t ht1 (fun x hx => h x (by simp [hx]))]
    simp

/-- Witness for claim C8 at a concrete tag list. -/
theorem parse_join_roundtrip_witness :
    parseTagsFromString (joinTags [['g', 'o'], ['w', 'e', 'b']])
      = [['g', 'o'], ['w', 'e', 'b']] :=
  parse_join_roundtrip [['g', 'o'], ['w', 'e', 'b']] (by decide)

end Homelab

namespace Homelab

theorem withId_approved (c : GComment) (k : Int) :
    (c.withId k).approved = c.approved := by
  cases c
  rfl

theorem withId_parentId (c : GComment) (k : Int) :
    (c.withId k).parentId = c.parentId := by
  cases c
  rfl

theorem clearReplies_replies (c : GComment) :
    (c.clearReplies).replies = [] := by
  cases c
  rfl

theorem IdPar_clearReplies (c : GComment) :
    IdPar c.clearReplies = IdPar c := by
  cases c
  rfl

theorem IdPar_addReply (p c : GComment) :
    IdPar (p.addReply c) = IdPar p := by
  cases p
  rfl

theorem addReply_replies (p c : GComment) :
    (p.addReply c).replies = p.replies ++ [c] := by
  cases p
  rfl

theorem occursTree_eq (cid : Int) (c : GComment) :
    occursTree cid c = ((c.id == cid) || occursList cid c.replies) := by
  cases c
  rfl

theorem occursList_append (cid : Int) (a b : List GComment) :
    occursList cid (a ++ b) = (occursList cid a || occursList cid b) := by
  induction a with
  | nil => simp [occursList]
  | cons c cs ih => simp [occursList, ih, Bool.or_assoc]

theorem handlePostComment_saved (postID an ae ct : GoStr) (now : Int)
    (c : GComment) (h : handlePostComment postID an ae ct now = .saved c) :
    c = GComment.mk 0 postID none (trimSpace an) (trimSpace ae) (trimSpace ct)
      now false [] := by
  simp only [handlePostComment] at h
  split at h
  · exact absurd h (by simp)
  · split at h
    · exact absurd h (by simp)
    · split at h
      · exact absurd h (by simp)
      · split at h
        · exact absurd h (by simp)
        · injection h with h2
          exact h2.symm

/-- Claim C2: a comment created through the public submission handler
carries approved = false, every comment the public listing
getCommentsByPostID returns carries approved = true, and hence the stored
submission (whatever rowid the database assigns it) never appears in the
public listing. -/
theorem submitted_comment_not_public (postID an ae ct : GoStr) (now : Int)
    (c : GComment) (h : handlePostComment postID an ae ct now = .saved c) :
    c.approved = false
    ∧ (∀ table qid d, d ∈ getCommentsByPostID table qid → d.approved = true)
    ∧ (∀ table qid rowid, c.withId rowid ∉ getCommentsByPostID table qid) := by
  have hc := handlePostComment_saved postID an ae ct now c h
  have happ : c.approved = false := by rw [hc]; rfl
  have hmem : ∀ table qid d, d ∈ getCommentsByPostID table qid → d.approved = true := by
    intro table qid d hd
    have hperm := List.perm_insertionSort
      (fun a b : GComment => a.createdAt ≤ b.createdAt)
      (table.filter (fun x => x.postId == qid && x.approved))
    have hd2 : d ∈ table.filter (fun x => x.postId == qid && x.approved) :=
      hperm.mem_iff.mp hd
    have := (List.mem_filter.mp hd2).2
    simp only [Bool.and_eq_true] at this
    exact this.2
  refine ⟨happ, hmem, ?_⟩
  intro table qid rowid hin
  have := hmem table qid _ hin
  rw [withId_approved, happ] at this
  exact absurd this (by simp)

/-- Claim C2 witness at a concrete submission. -/
theorem submitted_comment_not_public_witness :
    handlePostComment ['p'] ['A'] ['e'] ['h', 'i'] 5
      = PostCommentResult.saved
          (GComment.mk 0 ['p'] none ['A'] ['e'] ['h', 'i'] 5 false [])
    ∧ (GComment.mk 0 ['p'] none ['A'] ['e'] ['h', 'i'] 5 false []).approved
      = false
    ∧ ((GComment.mk 0 ['p'] none ['A'] ['e'] ['h', 'i'] 5 false []).withId 7)
      ∉ getCommentsByPostID
          [((GComment.mk 0 ['p'] none ['A'] ['e'] ['h', 'i'] 5 false []).withId 7)]
          ['p'] := by
  have h := submitted_comment_not_public ['p'] ['A'] ['e'] ['h', 'i'] 5
    (GComment.mk 0 ['p'] none ['A'] ['e'] ['h', 'i'] 5 false []) rfl
  exact ⟨rfl, h.1, h.2.2 _ ['p'] 7⟩

/-- Claim C9: every comment created through the public submission handler
is built with a nil parent reference, and storing it keeps the parent
reference nil: the public endpoint cannot create threaded replies. -/
theorem submitted_comment_has_no_parent (postID an ae ct : GoStr) (now : Int)
    (c : GComment) (h : handlePostComment postID an ae ct now = .saved c) :
    c.parentId = none ∧ ∀ rowid, (c.withId rowid).parentId = none := by
  have hc := handlePostComment_saved postID an ae ct now c h
  have hpar : c.parentId = none := by rw [hc]; rfl
  exact ⟨hpar, fun rowid => by rw [withId_parentId, hpar]⟩

/-- Claim C9 witness at a concrete submission. -/
theorem submitted_comment_has_no_parent_witness :
    handlePostComment ['q'] ['B'] ['f'] ['o', 'k'] 9
      = PostCommentResult.saved
          (GComment.mk 0 ['q'] none ['B'] ['f'] ['o', 'k'] 9 false [])
    ∧ (GComment.mk 0 ['q'] none ['B'] ['f'] ['o', 'k'] 9 false []).parentId
      = none := by
  have h := submitted_comment_has_no_parent ['q'] ['B'] ['f'] ['o', 'k'] 9
    (GComment.mk 0 ['q'] none ['B'] ['f'] ['o', 'k'] 9 false []) rfl
  exact ⟨rfl, h.1⟩

end Homelab

namespace Homelab

theorem clearReplies_id (c : GComment) : (c.clearReplies).id = c.id := by
  cases c
  rfl

theorem clearReplies_parentId (c : GComment) :
    (c.clearReplies).parentId = c.parentId := by
  cases c
  rfl

theorem nth_map {α β : Type} (f : α → β) (l : List α) (i : Nat) :
    nth (l.map f) i = (nth l i).map f := by
  induction l generalizing i with
  | nil => cases i <;> rfl
  | cons a as ih =>
    cases i with
    | zero => rfl
    | succ n => simpa [nth] using ih n

theorem nth_listModify {α : Type} (l : List α) (j i : Nat) (f : α → α) :
    nth (listModify l j f) i = if i = j then (nth l j).map f else nth l i := by
  induction l generalizing i j with
  | nil => simp [listModify, nth]
  | cons a as ih =>
    cases j with
    | zero =>
      cases i with
      | zero => simp [listModify, nth]
      | succ n => simp [listModify, nth]
    | succ m =>
      cases i with
      | zero => simp [listModify, nth]
      | succ n => simp [listModify, nth, ih, Nat.succ.injEq]

theorem mem_of_nth {α : Type} (l : List α) (i : Nat) (a : α)
    (h : nth l i = some a) : a ∈ l := by
  induction l generalizing i with
  | nil => simp [nth] at h
  | cons b bs ih =>
    cases i with
    | zero =>
      simp only [nth, Option.some.injEq] at h
      subst h
      exact List.mem_cons_self _ _
    | succ n => exact List.mem_cons_of_mem b (ih n h)

theorem mapIdxFrom_some (cs : List GComment) (cid : Int) :
    ∀ (k j : Nat), mapIdxFrom cs cid k = some j → ∃ c ∈ cs, c.id = cid := by
  induction cs with
  | nil => intro k j h; simp [mapIdxFrom] at h
  | cons c cs ih =>
    intro k j h
    rw [mapIdxFrom] at h
    cases hrec : mapIdxFrom cs cid (k + 1) with
    | some j2 =>
      obtain ⟨d, hd, hid⟩ := ih (k + 1) j2 hrec
      exact ⟨d, List.mem_cons_of_mem c hd, hid⟩
    | none =>
      rw [hrec] at h
      by_cases hcc : c.id = cid
      · exact ⟨c, List.mem_cons_self c cs, hcc⟩
      · exfalso
        change (if (c.id == cid) = true then some k else none) = some j at h
        rw [if_neg (by simpa using hcc)] at h
        exact absurd h (by simp)

theorem mapIdx_some (cs : List GComment) (cid : Int) (j : Nat)
    (h : mapIdx cs cid = some j) : ∃ c ∈ cs, c.id = cid :=
  mapIdxFrom_some cs cid 0 j h

theorem buildStep_inv (cid : Int) (base : List GComment)
    (hbase : ∀ c ∈ base, c.id = cid →
      ∃ p, c.parentId = some p ∧ ∀ d ∈ base, d.id ≠ p)
    (st : List GComment × List GComment) (i : Nat)
    (h : TreeInv cid base st) :
    TreeInv cid base (buildStep (mapIdx base) st i) := by
  obtain ⟨hroots, hreps, hskel⟩ := h
  cases hc : nth st.1 i with
  | none =>
    simp only [buildStep, hc]
    exact ⟨hroots, hreps, hskel⟩
  | some c =>
    have hbasei := hskel i
    rw [hc] at hbasei
    cases hb : nth base i with
    | none =>
      rw [hb] at hbasei
      simp at hbasei
    | some c0 =>
      rw [hb] at hbasei
      simp only [Option.map_some'] at hbasei
      have hIdPar : c.id = c0.id ∧ c.parentId = c0.parentId := by
        have h2 : IdPar c = IdPar c0 := Option.some.inj hbasei
        exact ⟨congrArg Prod.fst h2, congrArg Prod.snd h2⟩
      have hc0mem : c0 ∈ base := mem_of_nth base i c0 hb
      cases hpar : c.parentId with
      | none =>
        have hcid : c.id ≠ cid := by
          intro heq
          obtain ⟨p, hp, _⟩ := hbase c0 hc0mem (hIdPar.1 ▸ heq)
          rw [← hIdPar.2, hpar] at hp
          exact absurd hp (by simp)
        simp only [buildStep, hc, hpar]
        refine ⟨?_, hreps, hskel⟩
        rw [occursList_append]
        have h1 : occursList cid st.2 = false := hroots
        have h2 : occursTree cid c = false := by
          rw [occursTree_eq]
          have hb1 : (c.id == cid) = false := by
            simpa using hcid
          rw [hb1, hreps i c hc]
          rfl
        simp [h1, h2, occursList]
      | some pid =>
        cases hlook : mapIdx base pid with
        | none =>
          simp only [buildStep, hc, hpar, hlook]
          exact ⟨hroots, hreps, hskel⟩
        | some j =>
          have hcid : c.id ≠ cid := by
            intro heq
            obtain ⟨p, hp, hall⟩ := hbase c0 hc0mem (hIdPar.1 ▸ heq)
            rw [← hIdPar.2, hpar] at hp
            have hppid : p = pid := by
              exact (Option.some.inj hp).symm
            obtain ⟨d, hd, hdid⟩ := mapIdx_some base pid j hlook
            exact absurd hdid (hppid ▸ hall d hd)
          have htreec : occursTree cid c = false := by
            rw [occursTree_eq]
            have hb1 : (c.id == cid) = false := by simpa using hcid
            rw [hb1, hreps i c hc]
            rfl
          simp only [buildStep, hc, hpar, hlook]
          refine ⟨hroots, ?_, ?_⟩
          · intro i2 c2 h2
            rw [nth_listModify] at h2
            by_cases hij : i2 = j
            · rw [if_pos hij] at h2
              cases hj : nth st.1 j with
              | none => rw [hj] at h2; simp at h2
              | some p =>
                rw [hj] at h2
                simp only [Option.map_some', Option.some.injEq] at h2
                subst h2
                rw [addReply_replies, occursList_append]
                rw [hreps j p hj]
                simp [occursList, htreec]
            · rw [if_neg hij] at h2
              exact hreps i2 c2 h2
          · intro i2
            rw [nth_listModify]
            by_cases hij : i2 = j
            · rw [if_pos hij, hij]
              cases hj : nth st.1 j with
              | none =>
                have h3 := hskel j
                rw [hj] at h3
                simp only [Option.map_none'] at h3 ⊢
                exact h3
              | some p =>
                have h3 := hskel j
                rw [hj] at h3
                simp only [Option.map_some'] at h3 ⊢
                rw [← h3]
                simp [IdPar_addReply]
            · rw [if_neg hij]
              exact hskel i2

theorem foldl_buildStep_inv (cid : Int) (base : List GComment)
    (hbase : ∀ c ∈ base, c.id = cid →
      ∃ p, c.parentId = some p ∧ ∀ d ∈ base, d.id ≠ p)
    (idxs : List Nat) (st : List GComment × List GComment)
    (h : TreeInv cid base st) :
    TreeInv cid base (idxs.foldl (buildStep (mapIdx base)) st) := by
  induction idxs generalizing st with
  | nil => exact h
  | cons i is ih => exact ih _ (buildStep_inv cid base hbase st i h)

theorem buildCommentTree_eq (l : List GComment) :
    buildCommentTree l
      = ((List.range (l.map GComment.clearReplies).length).foldl
          (buildStep (mapIdx (l.map GComment.clearReplies)))
          (l.map GComment.clearReplies, [])).2 := rfl

/-- Claim C10: a comment whose parent reference is non-nil but matches the
ID of no comment in the input list appears nowhere in the forest returned
by buildCommentTree: orphaned replies are silently dropped from the public
comment tree. -/
theorem buildCommentTree_drops_orphans (l : List GComment) (cid : Int)
    (h : ∀ c ∈ l, c.id = cid →
      ∃ p, c.parentId = some p ∧ ∀ d ∈ l, d.id ≠ p) :
    occursList cid (buildCommentTree l) = false := by
  rw [buildCommentTree_eq]
  set base := l.map GComment.clearReplies with hbasedef
  have hbase : ∀ c ∈ base, c.id = cid →
      ∃ p, c.parentId = some p ∧ ∀ d ∈ base, d.id ≠ p := by
    intro c hcmem hcid
    rw [hbasedef] at hcmem
    obtain ⟨c0, hc0, rfl⟩ := List.mem_map.mp hcmem
    obtain ⟨p, hp, hall⟩ := h c0 hc0 (by rw [← clearReplies_id c0]; exact hcid)
    refine ⟨p, by rw [clearReplies_parentId]; exact hp, ?_⟩
    intro d hd
    rw [hbasedef] at hd
    obtain ⟨d0, hd0, rfl⟩ := List.mem_map.mp hd
    rw [clearReplies_id]
    exact hall d0 hd0
  have hinit : TreeInv cid base (base, []) := by
    refine ⟨rfl, ?_, fun i => rfl⟩
    intro i c hc
    have hcmem : c ∈ base := mem_of_nth base i c hc
    rw [hbasedef] at hcmem
    obtain ⟨c0, _, rfl⟩ := List.mem_map.mp hcmem
    rw [clearReplies_replies]
    rfl
  have hfin := foldl_buildStep_inv cid base hbase
    (List.range base.length) (base, []) hinit
  exact hfin.1

/-- Claim C10 witness: a single approved reply whose parent (ID 99) is not
in the list is dropped from the forest. -/
theorem buildCommentTree_drops_orphans_witness :
    occursList 5 (buildCommentTree
      [GComment.mk 5 ['p'] (some 99) ['A'] ['a'] ['x'] 1 true []]) = false :=
  buildCommentTree_drops_orphans
    [GComment.mk 5 ['p'] (some 99) ['A'] ['a'] ['x'] 1 true []] 5
    (fun c hc _ => by
      rcases List.mem_singleton.mp hc with rfl
      exact ⟨99, rfl, by decide⟩)

/-- Claim C4 evaluated at the failing input: for the chronologically
ascending thread of a root (ID 1, created 10) followed by its reply (ID 2,
parent 1, created 20), whose parent reference does match an ID in the list,
buildCommentTree returns only a value copy of the root taken before the
reply was attached, with an empty reply list; the reply occurs nowhere in
the returned forest, although the claim requires it to appear in the reply
list of its parent. -/
theorem buildCommentTree_loses_attached_reply :
    buildCommentTree
      [GComment.mk 1 ['p'] none ['A'] ['a'] ['x'] 10 true [],
        GComment.mk 2 ['p'] (some 1) ['B'] ['b'] ['y'] 20 true []]
      = [GComment.mk 1 ['p'] none ['A'] ['a'] ['x'] 10 true []]
    ∧ occursList 2 (buildCommentTree
        [GComment.mk 1 ['p'] none ['A'] ['a'] ['x'] 10 true [],
          GComment.mk 2 ['p'] (some 1) ['B'] ['b'] ['y'] 20 true []])
      = false := ⟨rfl, rfl⟩

end Homelab


namespace Homelab

theorem likeM_self_percent (cs : GoStr) (t : GoStr) :
    likeM (cs ++ ['%']) (cs ++ t) = true := by
  induction cs generalizing t with
  | nil =>
    simp only [List.nil_append]
    have heq : likeM ['%'] t = t.tails.any (fun s => likeM [] s) := by
      simp [likeM]
    rw [heq, List.any_eq_true]
    exact ⟨[], (List.mem_tails _ _).mpr List.nil_suffix, by simp [likeM]⟩
  | cons c cs ih =>
    by_cases hc : c = '%'
    · subst hc
      rw [List.cons_append, List.cons_append]
      have heq : likeM ('%' :: (cs ++ ['%'])) ('%' :: (cs ++ t))
          = ('%' :: (cs ++ t)).tails.any (fun s => likeM (cs ++ ['%']) s) := by
        simp [likeM]
      rw [heq, List.any_eq_true]
      exact ⟨cs ++ t, (List.mem_tails _ _).mpr (List.suffix_cons '%' (cs ++ t)),
        ih t⟩
    · rw [List.cons_append, List.cons_append]
      have heq : likeM (c :: (cs ++ ['%'])) (c :: (cs ++ t))
          = ((if c = '_' then true else Char.toLower c == Char.toLower c)
              && likeM (cs ++ ['%']) (cs ++ t)) := by
        simp [likeM, hc]
      rw [heq, ih t]
      by_cases hu : c = '_' <;> simp [hu]

theorem strSub_likeM (q h : GoStr) (hs : strSub q h = true) :
    likeM ('%' :: (q ++ ['%'])) h = true := by
  obtain ⟨a, b, rfl⟩ := (strSub_iff q h).mp hs
  have heq : likeM ('%' :: (q ++ ['%'])) (a ++ q ++ b)
      = (a ++ q ++ b).tails.any (fun s => likeM (q ++ ['%']) s) := by
    simp [likeM]
  rw [heq, List.any_eq_true]
  exact ⟨q ++ b, (List.mem_tails _ _).mpr ⟨a, by simp⟩, likeM_self_percent q b⟩

/-- Claim C7 counterexample: the empty string is a substring of the stored
title Hi, yet SearchPosts with the empty query returns the empty list, so
the stored post is not returned although the claim requires it. -/
theorem searchPosts_counterexample :
    strSub [] rowHi.title = true
    ∧ rowHi ∈ [rowHi]
    ∧ searchPosts [rowHi] [] = []
    ∧ rowToPost rowHi ∉ searchPosts [rowHi] [] := by
  refine ⟨rfl, List.mem_singleton.mpr rfl, rfl, ?_⟩
  intro hx
  simp [searchPosts] at hx

/-- Claim C7 as amended: for every stored post and every non-empty query
that is a substring of its title, SearchPosts returns that post; and a
query whose LIKE pattern matches no title, content, category or tags text
of any stored post returns the empty list. -/
theorem searchPosts_amended :
    (∀ (table : List PostRow) (query : GoStr) (r : PostRow),
      ¬query.isEmpty → r ∈ table → strSub query r.title = true →
      rowToPost r ∈ searchPosts table query)
    ∧ (∀ (table : List PostRow) (query : GoStr),
      (∀ r ∈ table,
        likeM ('%' :: (query ++ ['%'])) r.title = false
        ∧ likeM ('%' :: (query ++ ['%'])) r.content = false
        ∧ likeM ('%' :: (query ++ ['%'])) r.category = false
        ∧ likeM ('%' :: (query ++ ['%'])) r.tags = false) →
      searchPosts table query = []) := by
  constructor
  · intro table query r hq hr hsub
    rw [searchPosts, if_neg hq]
    apply List.mem_map_of_mem rowToPost
    rw [List.mem_filter]
    constructor
    · rw [sortByDateDesc]
      exact (List.perm_insertionSort _ table).mem_iff.mpr hr
    · simp [strSub_likeM query r.title hsub]
  · intro table query hnone
    rw [searchPosts]
    by_cases hq : query.isEmpty
    · rw [if_pos hq]
    · rw [if_neg hq]
      rw [List.map_eq_nil_iff, List.filter_eq_nil_iff]
      intro r hrs
      have hrt : r ∈ table := by
        rw [sortByDateDesc] at hrs
        exact (List.perm_insertionSort _ table).mem_iff.mp hrs
      obtain ⟨h1, h2, h3, h4⟩ := hnone r hrt
      simp [h1, h2, h3, h4]

/-- Claim C7 witness: the query i is returned for the post titled Hi, and
a query matching nothing in the empty table returns the empty list. -/
theorem searchPosts_amended_witness :
    (¬(['i'] : GoStr).isEmpty)
    ∧ rowHi ∈ [rowHi]
    ∧ strSub ['i'] rowHi.title = true
    ∧ rowToPost rowHi ∈ searchPosts [rowHi] ['i']
    ∧ searchPosts ([] : List PostRow) ['z'] = [] := by
  refine ⟨by decide, List.mem_singleton.mpr rfl, by decide, ?_, ?_⟩
  · exact searchPosts_amended.1 [rowHi] ['i'] rowHi (by decide)
      (List.mem_singleton.mpr rfl) (by decide)
  · exact searchPosts_amended.2 [] ['z'] (by intro r hr; cases hr)

end Homelab

namespace Homelab

theorem mem_mapPut {α : Type} (m : List (GoStr × α)) (k : GoStr) (v : α)
    (kv : GoStr × α) (h : kv ∈ mapPut m k v) : kv.2 = v ∨ kv ∈ m := by
  induction m with
  | nil =>
    simp only [mapPut, List.mem_singleton] at h
    exact Or.inl (by rw [h])
  | cons hd rest ih =>
    obtain ⟨k1, w⟩ := hd
    rw [mapPut] at h
    by_cases hk : (k1 == k) = true
    · rw [if_pos hk] at h
      rcases List.mem_cons.mp h with h1 | h1
      · exact Or.inl (by rw [h1])
      · exact Or.inr (List.mem_cons_of_mem _ h1)
    · rw [if_neg hk] at h
      rcases List.mem_cons.mp h with h1 | h1
      · exact Or.inr (by rw [h1]; exact List.mem_cons_self _ _)
      · rcases ih h1 with h2 | h2
        · exact Or.inl h2
        · exact Or.inr (List.mem_cons_of_mem _ h2)

theorem foldl_preserves {α β : Type} (P : β → Prop) (f : β → α → β)
    (hf : ∀ b a, P b → P (f b a)) :
    ∀ (l : List α) (b : β), P b → P (l.foldl f b) := by
  intro l
  induction l with
  | nil => intro b hb; simpa using hb
  | cons a as ih =>
    intro b hb
    rw [List.foldl_cons]
    exact ih (f b a) (hf b a hb)

/-- Claim C3: every post returned by SearchPostsByTag has a parsed tag
equal to the query tag under strings.EqualFold (the exact-membership check
performed on each row after the LIKE prefilter), and hence no stored post
whose parsed tags all differ from the query tag, in particular one merely
containing the tag as a substring of a longer tag, is ever returned. -/
theorem searchPostsByTag_exact (table : List PostRow) (tag : GoStr) :
    (∀ p ∈ searchPostsByTag table tag, ∃ t ∈ p.tags, equalFold t tag = true)
    ∧ (∀ r ∈ table, (∀ t ∈ (rowToPost r).tags, equalFold t tag = false) →
      rowToPost r ∉ searchPostsByTag table tag) := by
  have main : ∀ p ∈ searchPostsByTag table tag,
      ∃ t ∈ p.tags, equalFold t tag = true := by
    intro p hp
    by_cases htag : tag.isEmpty
    · rw [searchPostsByTag, if_pos htag] at hp
      simp at hp
    · rw [searchPostsByTag, if_neg htag] at hp
      obtain ⟨kv, hkv, hkvp⟩ := List.mem_map.mp hp
      have hall := foldl_preserves
        (fun m : List (GoStr × Post) =>
          ∀ kv2 ∈ m, ∃ t ∈ kv2.2.tags, equalFold t tag = true)
        _ ?_ (tagPatterns tag) [] (by simp) kv hkv
      · rw [← hkvp]
        exact hall
      · intro m pat hm
        refine foldl_preserves
          (fun m2 : List (GoStr × Post) =>
            ∀ kv2 ∈ m2, ∃ t ∈ kv2.2.tags, equalFold t tag = true)
          _ ?_ _ m hm
        intro m2 r hm2
        by_cases hcond : ((rowToPost r).tags.any (fun t => equalFold t tag)) = true
        · rw [if_pos hcond]
          intro kv2 hkv2
          rcases mem_mapPut m2 r.id (rowToPost r) kv2 hkv2 with h1 | h1
          · rw [h1]
            simpa [List.any_eq_true] using hcond
          · exact hm2 kv2 h1
        · rw [if_neg hcond]
          exact hm2
  refine ⟨main, ?_⟩
  intro r _ hallne hmem
  obtain ⟨t, ht, hEq⟩ := main (rowToPost r) hmem
  rw [hallne t ht] at hEq
  exact absurd hEq (by simp)

/-- Claim C3 witness: searching the tag go over a table holding a post
tagged go,web returns that post, and the post indeed carries an exactly
matching parsed tag. -/
theorem searchPostsByTag_exact_witness :
    rowToPost rowGoWeb ∈ searchPostsByTag [rowGoWeb] ['g', 'o']
    ∧ ∃ t ∈ (rowToPost rowGoWeb).tags, equalFold t ['g', 'o'] = true := by
  have hp : rowToPost rowGoWeb ∈ searchPostsByTag [rowGoWeb] ['g', 'o'] := by
    decide
  exact ⟨hp, (searchPostsByTag_exact [rowGoWeb] ['g', 'o']).1 _ hp⟩

end Homelab

namespace Homelab

/-- Claim C1 evaluated at the failing input: on the connection db.New
produces, PRAGMA foreign_keys = ON has never been executed, so SQLite does
not enforce the declared ON DELETE CASCADE; after DeletePost of post p1
its post row is gone but its comment is still present, contradicting the
claim that no comment with that post_id remains. -/
theorem deletePost_keeps_comments_on_new_connection :
    (deletePost (insertComment (insertPost dbNew rowP1) commentP1)
        ['p', '1']).posts = []
    ∧ (deletePost (insertComment (insertPost dbNew rowP1) commentP1)
        ['p', '1']).comments = [commentP1]
    ∧ ∃ cm ∈ (deletePost (insertComment (insertPost dbNew rowP1) commentP1)
        ['p', '1']).comments, cm.postId = ['p', '1'] :=
  ⟨rfl, rfl, commentP1, List.mem_singleton.mpr rfl, rfl⟩

/-- Supporting fact matching the repository test TestCascadeDeleteComments:
once PRAGMA foreign_keys = ON has been executed on the connection, the
declared cascade removes every comment of the deleted post. -/
theorem deletePost_cascades_with_pragma (c : SqliteConn) (pid : GoStr)
    (h : c.foreignKeysOn = true) :
    ∀ cm ∈ (deletePost c pid).comments, cm.postId ≠ pid := by
  intro cm hcm
  simp only [deletePost, h, if_true] at hcm
  have h2 := (List.mem_filter.mp hcm).2
  simpa using h2

end Homelab

namespace Homelab

/-- Claim C6: RequireAuth redirects to the login page without running the
protected handler when the session cookie is missing, when the presented
token is absent from the session map, and when the stored expiry lies
strictly before the current time; a token whose expiry has not passed is
accepted and its window is extended to now plus 24 hours. -/
theorem requireAuth_session_policy (st : AuthState) (tok : GoStr)
    (now expiry : Int) :
    (requireAuth st none now = .redirectLogin)
    ∧ (mapGet st.sessions tok = none →
        requireAuth st (some tok) now = .redirectLogin)
    ∧ (mapGet st.sessions tok = some expiry → expiry < now →
        requireAuth st (some tok) now = .redirectLogin)
    ∧ (mapGet st.sessions tok = some expiry → now ≤ expiry →
        requireAuth st (some tok) now
          = .handlerRun (mapPut st.sessions tok (now + sessionWindow))) := by
  refine ⟨rfl, ?_, ?_, ?_⟩
  · intro h
    simp [requireAuth, h]
  · intro h hlt
    simp [requireAuth, h, hlt]
  · intro h hle
    simp only [requireAuth, h]
    rw [if_neg (not_lt.mpr hle)]

/-- Claim C6 witness: the token t with stored expiry 100 is rejected at
time 200 and accepted at time 50, with the window moved to 86450. -/
theorem requireAuth_session_policy_witness :
    mapGet [((['t'] : GoStr), (100 : Int))] ['t'] = some 100
    ∧ (100 : Int) < 200
    ∧ requireAuth ⟨[(['t'], 100)]⟩ (some ['t']) 200 = .redirectLogin
    ∧ (50 : Int) ≤ 100
    ∧ requireAuth ⟨[(['t'], 100)]⟩ (some ['t']) 50
      = .handlerRun (mapPut [(['t'], 100)] ['t'] (50 + sessionWindow)) := by
  have h1 := requireAuth_session_policy ⟨[(['t'], 100)]⟩ ['t'] 200 100
  have h2 := requireAuth_session_policy ⟨[(['t'], 100)]⟩ ['t'] 50 100
  exact ⟨rfl, by norm_num, h1.2.2.1 rfl (by norm_num), by norm_num,
    h2.2.2.2 rfl (by norm_num)⟩

end Homelab

namespace Homelab

theorem mapGet_mapPut_same {α : Type} (m : List (GoStr × α)) (k : GoStr)
    (v : α) : mapGet (mapPut m k v) k = some v := by
  induction m with
  | nil => simp [mapPut, mapGet]
  | cons hd rest ih =>
    obtain ⟨k1, w⟩ := hd
    rw [mapPut]
    by_cases hk : (k1 == k) = true
    · rw [if_pos hk]
      simp [mapGet]
    · rw [if_neg hk, mapGet, if_neg hk]
      exact ih

theorem mapGet_mapPut_other {α : Type} (m : List (GoStr × α)) (k k2 : GoStr)
    (v : α) (h : k2 ≠ k) : mapGet (mapPut m k v) k2 = mapGet m k2 := by
  have hkk2 : ¬((k == k2) = true) := by
    intro hc
    rw [beq_iff_eq] at hc
    exact h hc.symm
  induction m with
  | nil =>
    simp [mapPut, mapGet, hkk2]
  | cons hd rest ih =>
    obtain ⟨k1, w⟩ := hd
    rw [mapPut]
    by_cases hk : (k1 == k) = true
    · have hk1 : ¬((k1 == k2) = true) := by
        intro hc
        rw [beq_iff_eq] at hk hc
        exact h (hc ▸ hk.symm).symm
      rw [if_pos hk, mapGet, if_neg hkk2, mapGet, if_neg hk1]
    · rw [if_neg hk, mapGet, mapGet]
      by_cases hk2 : (k1 == k2) = true
      · rw [if_pos hk2, if_pos hk2]
      · rw [if_neg hk2, if_neg hk2, ih]

theorem runRequests_cons (s : RateLimiterState) (ip : GoStr)
    (rest : List GoStr) :
    runRequests s (ip :: rest)
      = ((runRequests (rateLimit s ip).1 rest).1,
          (rateLimit s ip).2 :: (runRequests (rateLimit s ip).1 rest).2) := by
  rfl

theorem rateLimit_allow (s : RateLimiterState) (ip : GoStr) (t : Nat)
    (ht : (mapGet s.limiters ip).getD s.burst = t) (hpos : 0 < t) :
    rateLimit s ip
      = ({ s with limiters := mapPut s.limiters ip (t - 1) }, 200) := by
  simp only [rateLimit, ht]
  rw [if_pos hpos]

theorem rateLimit_deny (s : RateLimiterState) (ip : GoStr)
    (ht : (mapGet s.limiters ip).getD s.burst = 0) :
    rateLimit s ip
      = ({ s with limiters := mapPut s.limiters ip 0 }, 429) := by
  simp only [rateLimit, ht]
  rw [if_neg (by omega)]

theorem runRequests_drain (ip : GoStr) (b : Nat) :
    ∀ (k : Nat) (s : RateLimiterState) (t : Nat),
      s.burst = b → (mapGet s.limiters ip).getD b = t → k ≤ t →
      (runRequests s (List.replicate k ip)).2 = List.replicate k 200
      ∧ (runRequests s (List.replicate k ip)).1.burst = b
      ∧ (mapGet (runRequests s (List.replicate k ip)).1.limiters ip).getD b
        = t - k := by
  intro k
  induction k with
  | zero =>
    intro s t hb ht _
    refine ⟨rfl, hb, ?_⟩
    simpa [runRequests] using ht
  | succ k ih =>
    intro s t hb ht hk
    have htpos : 0 < t := by omega
    have hrl := rateLimit_allow s ip t (by rw [hb]; exact ht) htpos
    have hget : (mapGet (mapPut s.limiters ip (t - 1)) ip).getD b = t - 1 := by
      rw [mapGet_mapPut_same]
      rfl
    obtain ⟨h1, h2, h3⟩ :=
      ih { s with limiters := mapPut s.limiters ip (t - 1) } (t - 1)
        (by simpa using hb) hget (by omega)
    rw [List.replicate_succ, runRequests_cons, hrl]
    refine ⟨?_, h2, ?_⟩
    · simp only [h1]
      rfl
    · rw [h3]
      omega

theorem runRequests_append (l1 l2 : List GoStr) :
    ∀ s, runRequests s (l1 ++ l2)
      = ((runRequests (runRequests s l1).1 l2).1,
          (runRequests s l1).2 ++ (runRequests (runRequests s l1).1 l2).2) := by
  induction l1 with
  | nil =>
    intro s
    rfl
  | cons ip rest ih =>
    intro s
    rw [List.cons_append, runRequests_cons, ih, runRequests_cons]
    simp

theorem runRequests_preserves_other (ip other : GoStr) (hne : other ≠ ip) :
    ∀ (l : List GoStr), (∀ x ∈ l, x = ip) → ∀ (s : RateLimiterState),
      mapGet (runRequests s l).1.limiters other = mapGet s.limiters other := by
  intro l
  induction l with
  | nil =>
    intro _ s
    rfl
  | cons x rest ih =>
    intro hall s
    have hx : x = ip := hall x (by simp)
    subst hx
    rw [runRequests_cons]
    rw [ih (fun y hy => hall y (by simp [hy])) (rateLimit s x).1]
    simp only [rateLimit]
    by_cases hc : 0 < (mapGet s.limiters x).getD s.burst
    · rw [if_pos hc]
      exact mapGet_mapPut_other _ _ _ _ hne
    · rw [if_neg hc]
      exact mapGet_mapPut_other _ _ _ _ hne

/-- Claim C5: with configured burst b and no intervening token refill, the
first b requests from an address are admitted (the wrapped handler runs,
status 200) and the following request from the same address is rejected
with status 429, while the limiter entry of every other address is left
untouched, so requests from other addresses are unaffected. -/
theorem rateLimit_burst_exhaustion (b : Nat) (ip other : GoStr)
    (hne : other ≠ ip) :
    (runRequests (newRateLimiter b) (List.replicate (b + 1) ip)).2
      = List.replicate b 200 ++ [429]
    ∧ mapGet (runRequests (newRateLimiter b)
        (List.replicate (b + 1) ip)).1.limiters other = none := by
  obtain ⟨h1, h2, h3⟩ := runRequests_drain ip b b (newRateLimiter b) b rfl
    (by rfl) (le_refl b)
  constructor
  · rw [List.replicate_succ']
    rw [runRequests_append]
    rw [h1]
    have hdeny := rateLimit_deny
      (runRequests (newRateLimiter b) (List.replicate b ip)).1 ip
      (by rw [h2, h3]; omega)
    rw [runRequests_cons, hdeny]
    rfl
  · rw [runRequests_preserves_other ip other hne
      (List.replicate (b + 1) ip)
      (fun x hx => List.eq_of_mem_replicate hx) (newRateLimiter b)]
    rfl

/-- Claim C5 witness at burst 2: requests from address a get statuses
200, 200, 429 and the limiter map still has no entry for address b. -/
theorem rateLimit_burst_exhaustion_witness :
    (['b'] : GoStr) ≠ ['a']
    ∧ (runRequests (newRateLimiter 2) (List.replicate 3 ['a'])).2
      = [200, 200, 429]
    ∧ mapGet (runRequests (newRateLimiter 2)
        (List.replicate 3 ['a'])).1.limiters ['b'] = none := by
  have h := rateLimit_burst_exhaustion 2 ['a'] ['b'] (by decide)
  refine ⟨by decide, ?_, h.2⟩
  rw [h.1]
  rfl

end Homelab
